import Mathlib

/-!
Shallow embedding of `src/Crawler/Kinetics/download.py` (ActivityNet Kinetics
crawler).  External effects — `subprocess` invocations, the `proxies.txt`
file, filesystem checks and `random.choice` — are modelled by explicit
oracles, and each run produces a trace of `Event`s.  `PyResult`
distinguishes a normal return from an uncaught Python exception and from a
`exit()` call that kills the process.
-/

namespace Kinetics

/-- Result of running a piece of the Python code: a normal value, an uncaught
exception (carrying its message), or process termination via `exit`. -/
inductive PyResult (α : Type) where
  | ok (a : α)
  | raised (e : String)
  | exited (code : Nat)
deriving DecidableEq

/-- Observable effects of a run, in program order.  `pickProxy` marks a
successful `get_random_proxy()` call, `youtubeDl`/`ffmpeg` the external
resolver/encoder invocations (recording which proxy the command line uses),
`writeProxyFile` the rewrite of `proxies.txt`, `sshStop`/`sshDisable` the
remote administrative calls, and `appendStatus` a line appended to the csv
status file. -/
inductive Event where
  | pickProxy (proxy : String)
  | youtubeDl (proxy : String)
  | ffmpeg (proxy : String)
  | writeProxyFile (content : String)
  | sshStop (ip : String)
  | sshDisable (ip : String)
  | appendStatus (line : String)
deriving DecidableEq

/-- `startsWithL hay needle` is true iff `needle` is an initial segment of
`hay`. -/
def startsWithL : List Char → List Char → Bool
  | _, [] => true
  | [], _ :: _ => false
  | h :: hs, n :: ns => decide (h = n) && startsWithL hs ns

/-- `hasSubL hay needle` is true iff `needle` occurs contiguously inside
`hay`: the semantics of the Python expression `needle in hay` on strings. -/
def hasSubL : List Char → List Char → Bool
  | [], needle => needle.isEmpty
  | h :: t, needle => startsWithL (h :: t) needle || hasSubL t needle

/-- Python `needle in hay` on strings. -/
def strContains (hay needle : String) : Bool := hasSubL hay.toList needle.toList

/-- Python `str.split(sep)` for a one-character separator, on char lists. -/
def splitCh (c : Char) : List Char → List (List Char)
  | [] => [[]]
  | a :: as =>
    if a = c then [] :: splitCh c as
    else
      match splitCh c as with
      | [] => [[a]]
      | s :: r => (a :: s) :: r

/-- Predicate form of the newline character, for `str.strip`-like drops. -/
def nlChar (a : Char) : Bool := decide (a = '\n')

/-- Python `str.strip(chars)`: drop characters satisfying `p` from both
ends. -/
def dropEnds (p : Char → Bool) (l : List Char) : List Char :=
  ((l.dropWhile p).reverse.dropWhile p).reverse

/-- Python `file.readlines`, expressed through the newline-separated
segments of the content: every segment but the last becomes a line ending in
a newline, and the last segment is a final unterminated line unless it is
empty. -/
def linesOfL : List (List Char) → List (List Char)
  | [] => []
  | [e] => if e = [] then [] else [e]
  | e :: e' :: es => (e ++ ['\n']) :: linesOfL (e' :: es)

/-- The lines of a `proxies.txt` content, as Python `readlines` yields
them. -/
def readlinesL (content : List Char) : List (List Char) :=
  linesOfL (splitCh '\n' content)

/-- The filter of `remove_proxy_from_list`: keep a line iff the line with
newlines stripped from both ends differs from the proxy. -/
def keepLine (pr l : List Char) : Bool := decide (dropEnds nlChar l ≠ pr)

/-- New `proxies.txt` content written by `remove_proxy_from_list`, at the
char-list level. -/
def removeContentL (content pr : List Char) : List Char :=
  List.flatten ((readlinesL content).filter (keepLine pr))

/-- New `proxies.txt` content written by `remove_proxy_from_list`. -/
def removeContent (content proxy : String) : String :=
  String.mk (removeContentL content.toList proxy.toList)

/-- Python `text.split` on newline, as a list of strings. -/
def pySplitNl (s : String) : List String :=
  (splitCh '\n' s.toList).map String.mk

/-- Python `list.remove('')`: drop the first empty entry, or fail
(`ValueError`) when none is present. -/
def removeFirstBlank : List String → Option (List String)
  | [] => none
  | x :: xs => if x = "" then some xs else (removeFirstBlank xs).map (fun l => x :: l)

def valueErrorMsg : String := "ValueError: list.remove(x): x not in list"

def indexErrorMsg : String := "IndexError: cannot choose from an empty sequence"

def ioErrorMsg : String := "IOError: could not read proxies.txt"

def assertLenMsg : String := "AssertionError: video_identifier must have length 11"

/-- `get_random_proxy` of download.py.  `fileContent` is the current
`proxies.txt` content, `none` when the file cannot be opened (the code then
prints and calls `exit(1)`).  `i` models `random.choice`: the entry at index
`i % length` is chosen, so letting `i` range over all naturals ranges
uniformly over the entries.  The code splits on newlines, removes the first
empty entry (`ValueError` when there is none), chooses, and exits when the
chosen entry is falsy (empty). -/
def get_random_proxy (fileContent : Option String) (i : Nat) : PyResult String :=
  match fileContent with
  | none => .exited 1
  | some text =>
    let proxies := pySplitNl text
    match removeFirstBlank proxies with
    | none => .raised valueErrorMsg
    | some ps =>
      if ps = [] then .raised indexErrorMsg
      else
        let proxy := ps.getD (i % ps.length) ""
        if proxy = "" then .exited 1 else .ok proxy

/-- The character set of the Python literal stripped from the proxy by
`disable_squid_on_srv` (`strip` takes a set of characters). -/
def adminChars : List Char := ['h', 't', 'p', 's', ':', '/']

/-- The ip extraction of `disable_squid_on_srv`: strip the characters of the
scheme literal from both ends, then take the part before the first colon. -/
def squidIp (proxy : String) : String :=
  String.mk ((splitCh ':' (dropEnds (fun a => adminChars.contains a) proxy.toList)).headD [])

def sshStopCmd (ip : String) : List String :=
  ["ssh", "-o", "StrictHostKeychecking=no", ip, "sudo", "systemctl", "stop", "squid"]

def sshDisableCmd (ip : String) : List String :=
  ["ssh", "-o", "StrictHostKeychecking=no", ip, "sudo", "systemctl", "disable", "squid"]

/-- `disable_squid_on_srv` of download.py: two `subprocess.run` calls whose
`CompletedProcess` results (exit codes, supplied by `runner`) are discarded;
`run` without a check flag never raises on a nonzero exit code. -/
def disable_squid_on_srv (runner : List String → Nat) (proxy : String) :
    (Nat × Nat) × List Event :=
  let ip := squidIp proxy
  let stopCode := runner (sshStopCmd ip)
  let disableCode := runner (sshDisableCmd ip)
  ((stopCode, disableCode), [.sshStop ip, .sshDisable ip])

/-- `remove_proxy_from_list` of download.py: rewrite `proxies.txt` keeping
the lines whose stripped form differs from the proxy, then fire the remote
disable.  Opening an unreadable file raises (there is no handler here). -/
def remove_proxy_from_list (runner : List String → Nat) (file : Option String)
    (proxy : String) : PyResult String × List Event :=
  match file with
  | none => (.raised ioErrorMsg, [])
  | some content =>
    let newContent := removeContent content proxy
    let r := disable_squid_on_srv runner proxy
    (.ok newContent, .writeProxyFile newContent :: r.2)

/-- The `while True` URL-resolution loop of `download_clip`.  The command
string is built once, before the loop, so every iteration runs youtube-dl
with the same proxy; `resolve k` is the result of the k-th
`subprocess.check_output` call (`.ok` stdout, `.error` output for a
`CalledProcessError`).  On a failure whose output contains "429" the proxy
is removed from the pool before the attempt counter is checked.  `fuel`
bounds the recursion; `download_clip` passes `fuel = numAttempts`, which is
exact for the code's `num_attempts = 5` starting at `attempts = 0`. -/
def resolveLoop (runner : List String → Nat) (resolve : Nat → Except String String)
    (proxy : String) (numAttempts : Nat) :
    Option String → Nat → Nat → Option String × List Event × PyResult (Except String String)
  | file, _, 0 => (file, [], .raised "nontermination")
  | file, k, fuel + 1 =>
    match resolve k with
    | .ok url => (file, [.youtubeDl proxy], .ok (.ok url))
    | .error errOut =>
      if strContains errOut "429" then
        match remove_proxy_from_list runner file proxy with
        | (.ok newContent, evs) =>
          if k + 1 = numAttempts then
            (some newContent, .youtubeDl proxy :: evs, .ok (.error errOut))
          else
            ((resolveLoop runner resolve proxy numAttempts (some newContent) (k + 1) fuel).1,
              .youtubeDl proxy :: evs
                ++ (resolveLoop runner resolve proxy numAttempts (some newContent) (k + 1) fuel).2.1,
              (resolveLoop runner resolve proxy numAttempts (some newContent) (k + 1) fuel).2.2)
        | (.raised e, evs) => (file, .youtubeDl proxy :: evs, .raised e)
        | (.exited code, evs) => (file, .youtubeDl proxy :: evs, .exited code)
      else
        if k + 1 = numAttempts then (file, [.youtubeDl proxy], .ok (.error errOut))
        else
          ((resolveLoop runner resolve proxy numAttempts file (k + 1) fuel).1,
            .youtubeDl proxy :: (resolveLoop runner resolve proxy numAttempts file (k + 1) fuel).2.1,
            (resolveLoop runner resolve proxy numAttempts file (k + 1) fuel).2.2)

/-- Per-item oracles: the `random.choice` index, the youtube-dl results, the
ffmpeg result (`some errOutput` for a `CalledProcessError`, `none` for exit
code 0), the post-encode `os.path.exists(output_filename)` answer, and the
pre-download `os.path.exists(output_filename)` answer seen by the wrapper. -/
structure ItemEnv where
  randIdx : Nat
  resolve : Nat → Except String String
  encodeResult : Option String
  outputExistsAfter : Bool
  outputPreExists : Bool

/-- Outcome of `download_clip`: final `proxies.txt` state, the event trace,
and the Python-level result (normally `(status, message)`). -/
structure ClipOut where
  file : Option String
  events : List Event
  result : PyResult (Bool × String)
deriving DecidableEq

/-- `download_clip` of download.py.  The asserts run first (only the length
check can fail in a typed setting); then a single `get_random_proxy()` call
fixes the proxy used by the resolution command and the encode command; the
resolution loop retries up to `numAttempts` times; on resolution success the
ffmpeg trim runs once, a "429" in its failure output removes the proxy, and
on a no-exception encode the returned status is exactly
`os.path.exists(output_filename)` with message "Downloaded". -/
def download_clip (runner : List String → Nat) (file : Option String) (env : ItemEnv)
    (video_identifier output_filename : String) (numAttempts : Nat) : ClipOut :=
  if video_identifier.length = 11 then
    match get_random_proxy file env.randIdx with
    | .exited code => ⟨file, [], .exited code⟩
    | .raised e => ⟨file, [], .raised e⟩
    | .ok proxy =>
      match (resolveLoop runner env.resolve proxy numAttempts file 0 numAttempts).2.2 with
      | .raised e =>
        ⟨(resolveLoop runner env.resolve proxy numAttempts file 0 numAttempts).1,
          .pickProxy proxy :: (resolveLoop runner env.resolve proxy numAttempts file 0 numAttempts).2.1,
          .raised e⟩
      | .exited code =>
        ⟨(resolveLoop runner env.resolve proxy numAttempts file 0 numAttempts).1,
          .pickProxy proxy :: (resolveLoop runner env.resolve proxy numAttempts file 0 numAttempts).2.1,
          .exited code⟩
      | .ok (.error errOut) =>
        ⟨(resolveLoop runner env.resolve proxy numAttempts file 0 numAttempts).1,
          .pickProxy proxy :: (resolveLoop runner env.resolve proxy numAttempts file 0 numAttempts).2.1,
          .ok (false, errOut)⟩
      | .ok (.ok _url) =>
        match env.encodeResult with
        | some errOut =>
          if strContains errOut "429" then
            match remove_proxy_from_list runner
                (resolveLoop runner env.resolve proxy numAttempts file 0 numAttempts).1 proxy with
            | (.ok newContent, evs) =>
              ⟨some newContent,
                .pickProxy proxy
                  :: (resolveLoop runner env.resolve proxy numAttempts file 0 numAttempts).2.1
                  ++ (.ffmpeg proxy :: evs),
                .ok (false, errOut)⟩
            | (.raised e, evs) =>
              ⟨(resolveLoop runner env.resolve proxy numAttempts file 0 numAttempts).1,
                .pickProxy proxy
                  :: (resolveLoop runner env.resolve proxy numAttempts file 0 numAttempts).2.1
                  ++ (.ffmpeg proxy :: evs),
                .raised e⟩
            | (.exited code, evs) =>
              ⟨(resolveLoop runner env.resolve proxy numAttempts file 0 numAttempts).1,
                .pickProxy proxy
                  :: (resolveLoop runner env.resolve proxy numAttempts file 0 numAttempts).2.1
                  ++ (.ffmpeg proxy :: evs),
                .exited code⟩
          else
            ⟨(resolveLoop runner env.resolve proxy numAttempts file 0 numAttempts).1,
              .pickProxy proxy
                :: (resolveLoop runner env.resolve proxy numAttempts file 0 numAttempts).2.1
                ++ [.ffmpeg proxy],
              .ok (false, errOut)⟩
        | none =>
          ⟨(resolveLoop runner env.resolve proxy numAttempts file 0 numAttempts).1,
            .pickProxy proxy
              :: (resolveLoop runner env.resolve proxy numAttempts file 0 numAttempts).2.1
              ++ [.ffmpeg proxy],
            .ok (env.outputExistsAfter, "Downloaded")⟩
  else ⟨file, [], .raised assertLenMsg⟩

/-- One manifest row, after column normalisation.  The times are modelled as
integers (the manifest carries integral second counts). -/
structure Row where
  videoId : String
  startTime : Int
  endTime : Int
  labelName : String
deriving DecidableEq

/-- `label_to_dir` as passed to the wrapper: either the flat test directory
(a plain string) or the per-label dictionary. -/
inductive LabelToDir where
  | flat (dir : String)
  | byLabel (m : String → String)

/-- Left-pad with zeros to the given width. -/
def zfill (w : Nat) (s : String) : String :=
  if s.length < w then String.mk (List.replicate (w - s.length) '0' ++ s.toList) else s

/-- The default trim format of the tool: Python percent-06d. -/
def fmt06d (n : Int) : String :=
  if n < 0 then "-" ++ zfill 5 (Nat.repr n.natAbs) else zfill 6 (Nat.repr n.natAbs)

/-- `construct_video_filename` of download.py (`os.path.join` written as a
slash join, adequate for the relative directory names the tool creates). -/
def construct_video_filename (row : Row) (ltd : LabelToDir) (tf : Int → String) : String :=
  let basename := row.videoId ++ "_" ++ tf row.startTime ++ "_" ++ tf row.endTime ++ ".mp4"
  let dirname :=
    match ltd with
    | .flat d => d
    | .byLabel m => m row.labelName
  dirname ++ "/" ++ basename

/-- `os.path.basename` for slash-separated paths. -/
def pyBasename (p : String) : String :=
  String.mk ((splitCh '/' p.toList).getLastD [])

/-- `takeUntilSub needle l`: the longest initial segment of `l` before the
first occurrence of `needle` — Python `l.split(needle)[0]`. -/
def takeUntilSub (needle : List Char) : List Char → List Char
  | [] => []
  | a :: as => if startsWithL (a :: as) needle then [] else a :: takeUntilSub needle as

/-- The `clip_id` computed by the wrapper:
`os.path.basename(output_filename).split('.mp4')[0]`. -/
def clipIdOf (output_filename : String) : String :=
  String.mk (takeUntilSub ".mp4".toList (pyBasename output_filename).toList)

/-- Python `str.replace(',', '.')`. -/
def pyReplaceCommas (s : String) : String :=
  String.mk (s.toList.map fun c => if c = ',' then '.' else c)

def error_429_message : String := "HTTP Error 429: Too Many Requests"

/-- The line appended to the csv status file for a completed item. -/
def statusLine (vid log : String) : String :=
  "\n" ++ vid ++ ", " ++ pyReplaceCommas log

/-- Outcome of `download_clip_wrapper`: final `proxies.txt` state, event
trace, and the `(clip_id, downloaded, log)` tuple (or propagated
exception/exit). -/
structure WrapOut where
  file : Option String
  events : List Event
  result : PyResult (String × Bool × String)
deriving DecidableEq

/-- `download_clip_wrapper` of download.py.  `csvConfigured` tells whether
`csv_status_file` is not None.  An already-existing output returns
`(clip_id, True, 'Exists')` at once — before the status-log write at the end
of the function.  After a download, the outcome is appended to the status
log unless the log message contains the rate-limit marker. -/
def download_clip_wrapper (runner : List String → Nat) (file : Option String)
    (row : Row) (ltd : LabelToDir) (tf : Int → String) (env : ItemEnv)
    (csvConfigured : Bool) : WrapOut :=
  if env.outputPreExists then
    ⟨file, [], .ok (clipIdOf (construct_video_filename row ltd tf), true, "Exists")⟩
  else
    match (download_clip runner file env row.videoId (construct_video_filename row ltd tf) 5).result with
    | .ok (downloaded, log) =>
      if csvConfigured && !(strContains log error_429_message) then
        ⟨(download_clip runner file env row.videoId (construct_video_filename row ltd tf) 5).file,
          (download_clip runner file env row.videoId (construct_video_filename row ltd tf) 5).events
            ++ [.appendStatus (statusLine row.videoId log)],
          .ok (clipIdOf (construct_video_filename row ltd tf), downloaded, log)⟩
      else
        ⟨(download_clip runner file env row.videoId (construct_video_filename row ltd tf) 5).file,
          (download_clip runner file env row.videoId (construct_video_filename row ltd tf) 5).events,
          .ok (clipIdOf (construct_video_filename row ltd tf), downloaded, log)⟩
    | .raised e =>
      ⟨(download_clip runner file env row.videoId (construct_video_filename row ltd tf) 5).file,
        (download_clip runner file env row.videoId (construct_video_filename row ltd tf) 5).events,
        .raised e⟩
    | .exited code =>
      ⟨(download_clip runner file env row.videoId (construct_video_filename row ltd tf) 5).file,
        (download_clip runner file env row.videoId (construct_video_filename row ltd tf) 5).events,
        .exited code⟩

/-- One work item: a manifest row together with its per-item oracles. -/
structure Item where
  row : Row
  env : ItemEnv

/-- How a run of the batch ended prematurely: an uncaught exception or a
process exit. -/
inductive Halt where
  | raised (e : String)
  | exited (code : Nat)
deriving DecidableEq

/-- Outcome of the sequential batch: final `proxies.txt` state, the combined
event trace, the collected outcomes, and `halt` when the process died before
finishing. -/
structure BatchOut where
  file : Option String
  events : List Event
  outcomes : List (String × Bool × String)
  halt : Option Halt
deriving DecidableEq

/-- The sequential (`num_jobs = 1`) dispatch loop of `main`: items are
processed in order and an uncaught exception or an `exit` from an item stops
the whole process, discarding the remaining items. -/
def runBatch (runner : List String → Nat) (csv : Bool) (ltd : LabelToDir)
    (tf : Int → String) : Option String → List Item → BatchOut
  | file, [] => ⟨file, [], [], none⟩
  | file, it :: rest =>
    match (download_clip_wrapper runner file it.row ltd tf it.env csv).result with
    | .ok out =>
      ⟨(runBatch runner csv ltd tf (download_clip_wrapper runner file it.row ltd tf it.env csv).file rest).file,
        (download_clip_wrapper runner file it.row ltd tf it.env csv).events
          ++ (runBatch runner csv ltd tf (download_clip_wrapper runner file it.row ltd tf it.env csv).file rest).events,
        out :: (runBatch runner csv ltd tf (download_clip_wrapper runner file it.row ltd tf it.env csv).file rest).outcomes,
        (runBatch runner csv ltd tf (download_clip_wrapper runner file it.row ltd tf it.env csv).file rest).halt⟩
    | .raised e =>
      ⟨(download_clip_wrapper runner file it.row ltd tf it.env csv).file,
        (download_clip_wrapper runner file it.row ltd tf it.env csv).events, [], some (.raised e)⟩
    | .exited code =>
      ⟨(download_clip_wrapper runner file it.row ltd tf it.env csv).file,
        (download_clip_wrapper runner file it.row ltd tf it.env csv).events, [], some (.exited code)⟩

/-- Content of a well-formed `proxies.txt`: each entry on its own
newline-terminated line. -/
def poolContent (es : List String) : String :=
  String.mk (List.flatten (es.map fun e => e.toList ++ ['\n']))

/-- Iterated pool removal: the file contents reachable from `c` by later
`remove_proxy_from_list` rewrites. -/
def applyRemoves : String → List String → String
  | c, [] => c
  | c, q :: qs => applyRemoves (removeContent c q) qs

/-- Segment-level description of the `proxies.txt` rewrite: every
newline-separated segment equal to the proxy disappears, the final segment
survives only when it is a nonempty non-proxy line, and otherwise the file
ends with a trailing newline (an empty final segment). -/
def removeSegs (pr : List Char) : List (List Char) → List (List Char)
  | [] => [[]]
  | [e] => if e ≠ [] ∧ e ≠ pr then [e] else [[]]
  | e :: e' :: es =>
    if e = pr then removeSegs pr (e' :: es) else e :: removeSegs pr (e' :: es)

/-- The proxies recorded by `pickProxy` events. -/
def pickEvents (evs : List Event) : List String :=
  evs.filterMap fun e => match e with | .pickProxy p => some p | _ => none

/-- The proxies on the youtube-dl command lines of a trace. -/
def ytdlProxies (evs : List Event) : List String :=
  evs.filterMap fun e => match e with | .youtubeDl p => some p | _ => none

/-- The proxies on the ffmpeg command lines of a trace. -/
def ffmpegProxies (evs : List Event) : List String :=
  evs.filterMap fun e => match e with | .ffmpeg p => some p | _ => none

/-- The lines appended to the csv status file in a trace. -/
def loggedLines (evs : List Event) : List String :=
  evs.filterMap fun e => match e with | .appendStatus l => some l | _ => none

/-- Events the resolution loop may emit, relative to the proxy fixed before
the loop: every youtube-dl invocation carries exactly that proxy, and no
pick, encode or status-log event occurs inside the loop. -/
def loopEvent (proxy : String) : Event → Prop
  | .pickProxy _ => False
  | .youtubeDl q => q = proxy
  | .ffmpeg _ => False
  | .appendStatus _ => False
  | _ => True

/-- Events that may follow the single pick of `download_clip`: resolver and
encoder command lines carry the picked proxy, no further pick happens, and
no status-log write happens inside `download_clip`. -/
def tailEvent (proxy : String) : Event → Prop
  | .pickProxy _ => False
  | .youtubeDl q => q = proxy
  | .ffmpeg q => q = proxy
  | .appendStatus _ => False
  | _ => True

/-- Concrete two-proxy pool for examining the retry behaviour: first
resolution attempt rate-limited, second succeeds. -/
def c1Pool : String := "https://10.0.0.1:3128\nhttps://10.0.0.2:3128\n"

def c1Env : ItemEnv :=
  ⟨0, fun k => if k = 0 then .error "HTTP Error 429: Too Many Requests" else .ok "http://vid",
    none, true, false⟩

def c1Run : ClipOut :=
  download_clip (fun _ => 0) (some c1Pool) c1Env "abcdefghijk" "o/x.mp4" 5

/-- Concrete row and environment of an item whose output already exists. -/
def c3Row : Row := ⟨"abcdefghijk", 10, 15, "dance"⟩

def c3Env : ItemEnv := ⟨0, fun _ => .ok "u", none, true, true⟩

def c5Row : Row := ⟨"abcdefghijk", 1, 2, "d"⟩

def c5EnvPre : ItemEnv := ⟨0, fun _ => .ok "u", none, true, true⟩

/-- Concrete item whose fetch would succeed, used with a pool file that
lacks a trailing newline. -/
def c8Item : Item := ⟨⟨"abcdefghijk", 1, 2, "d"⟩, ⟨0, fun _ => .ok "u", none, true, false⟩⟩

theorem startsWithL_iff : ∀ (hay n : List Char), startsWithL hay n = true ↔ ∃ t, hay = n ++ t
  | _, [] => by simp [startsWithL]
  | [], _ :: _ => by simp [startsWithL]
  | h :: hs, n :: ns => by
    simp [startsWithL, startsWithL_iff hs ns, List.cons_append, List.cons.injEq,
      exists_and_left]

theorem hasSubL_iff : ∀ (hay n : List Char), hasSubL hay n = true ↔ ∃ s t, hay = s ++ n ++ t
  | [], n => by
    cases n with
    | nil => simp [hasSubL]
    | cons a as => simp [hasSubL]
  | h :: t, n => by
    rw [hasSubL, Bool.or_eq_true, startsWithL_iff, hasSubL_iff t n]
    constructor
    · rintro (⟨u, hu⟩ | ⟨s, u, hsu⟩)
      · exact ⟨[], u, by simpa using hu⟩
      · exact ⟨h :: s, u, by simp [hsu]⟩
    · rintro ⟨s, u, he⟩
      cases s with
      | nil => exact Or.inl ⟨u, by simpa using he⟩
      | cons a s' =>
        rw [List.cons_append, List.cons_append, List.cons.injEq] at he
        exact Or.inr ⟨s', u, he.2⟩

theorem strContains_of_sub (hay mid sub : String) (h1 : strContains hay mid = true)
    (h2 : strContains mid sub = true) : strContains hay sub = true := by
  unfold strContains at h1 h2 ⊢
  rw [hasSubL_iff] at h1 h2 ⊢
  obtain ⟨s, t, hst⟩ := h1
  obtain ⟨u, v, huv⟩ := h2
  exact ⟨s ++ u, v ++ t, by rw [hst, huv]; simp [List.append_assoc]⟩

/-- An output without the three-character marker cannot contain the full
rate-limit message, since the latter contains the former. -/
theorem not_contains_marker (x : String) (h : strContains x "429" = false) :
    strContains x error_429_message = false := by
  by_contra hc
  rw [Bool.not_eq_false] at hc
  have h2 : strContains error_429_message "429" = true := by decide
  have := strContains_of_sub x error_429_message "429" hc h2
  rw [h] at this
  cases this

theorem splitCh_ne_nil (c : Char) : ∀ l : List Char, splitCh c l ≠ []
  | [] => by simp [splitCh]
  | a :: as => by
    simp only [splitCh]
    split
    · simp
    · split <;> simp

theorem not_mem_splitCh (c : Char) : ∀ (l : List Char), ∀ s ∈ splitCh c l, c ∉ s
  | [] => by
    intro s hs
    simp only [splitCh, List.mem_singleton] at hs
    simp [hs]
  | a :: as => by
    intro s hs
    simp only [splitCh] at hs
    by_cases hac : a = c
    · rw [if_pos hac] at hs
      rcases List.mem_cons.mp hs with h | h
      · simp [h]
      · exact not_mem_splitCh c as s h
    · rw [if_neg hac] at hs
      cases hsp : splitCh c as with
      | nil => exact absurd hsp (splitCh_ne_nil c as)
      | cons s0 r =>
        rw [hsp] at hs
        rcases List.mem_cons.mp hs with h | h
        · subst h
          intro hmem
          rcases List.mem_cons.mp hmem with h1 | h1
          · exact hac h1.symm
          · exact not_mem_splitCh c as s0 (by rw [hsp]; exact List.mem_cons_self s0 r) h1
        · exact not_mem_splitCh c as s (by rw [hsp]; exact List.mem_cons.mpr (Or.inr h))

theorem splitCh_of_not_mem (c : Char) : ∀ (l : List Char), c ∉ l → splitCh c l = [l]
  | [], _ => rfl
  | a :: as, h => by
    have ha : ¬ a = c := fun e => h (by simp [e])
    have has : c ∉ as := fun e => h (List.mem_cons.mpr (Or.inr e))
    simp only [splitCh, if_neg ha]
    rw [splitCh_of_not_mem c as has]

theorem splitCh_append_cons (c : Char) : ∀ (s t : List Char), c ∉ s →
    splitCh c (s ++ c :: t) = s :: splitCh c t
  | [], t, _ => by simp [splitCh]
  | a :: s, t, h => by
    have ha : ¬ a = c := fun e => h (by simp [e])
    have hs : c ∉ s := fun e => h (List.mem_cons.mpr (Or.inr e))
    simp only [List.cons_append, splitCh, if_neg ha]
    rw [show splitCh c (s.append (c :: t)) = s :: splitCh c t from splitCh_append_cons c s t hs]

theorem dropWhile_forall_false (p : Char → Bool) :
    ∀ (l : List Char), (∀ a ∈ l, p a = false) → l.dropWhile p = l
  | [], _ => rfl
  | a :: as, h => by
    simp [List.dropWhile_cons, h a (List.mem_cons_self a as)]

theorem dropEnds_forall_false (p : Char → Bool) (l : List Char)
    (h : ∀ a ∈ l, p a = false) : dropEnds p l = l := by
  unfold dropEnds
  rw [dropWhile_forall_false p l h,
    dropWhile_forall_false p l.reverse (fun a ha => h a (List.mem_reverse.mp ha)),
    List.reverse_reverse]

theorem nlChar_false_of_not_mem (e : List Char) (h : '\n' ∉ e) :
    ∀ a ∈ e, nlChar a = false := fun a ha => by
  simp only [nlChar, decide_eq_false_iff_not]
  rintro rfl
  exact h ha

theorem dropEnds_append_nl (e : List Char) (h : '\n' ∉ e) :
    dropEnds nlChar (e ++ ['\n']) = e := by
  cases e with
  | nil => decide
  | cons a as =>
    have hf := nlChar_false_of_not_mem (a :: as) h
    have h1 : ((a :: as) ++ ['\n']).dropWhile nlChar = (a :: as) ++ ['\n'] := by
      rw [List.cons_append, List.dropWhile_cons, hf a (List.mem_cons_self a as)]
      simp
    unfold dropEnds
    rw [h1, List.reverse_append]
    show (List.dropWhile nlChar ('\n' :: (a :: as).reverse)).reverse = a :: as
    rw [List.dropWhile_cons]
    simp only [show nlChar '\n' = true from rfl, if_pos]
    rw [dropWhile_forall_false nlChar (a :: as).reverse
      (fun x hx => hf x (List.mem_reverse.mp hx)), List.reverse_reverse]

theorem keepLine_mid (pr e : List Char) (h : '\n' ∉ e) :
    keepLine pr (e ++ ['\n']) = decide (e ≠ pr) := by
  rw [keepLine, dropEnds_append_nl e h]

theorem keepLine_last (pr e : List Char) (h : '\n' ∉ e) :
    keepLine pr e = decide (e ≠ pr) := by
  rw [keepLine, dropEnds_forall_false nlChar e (nlChar_false_of_not_mem e h)]

/-- Bridge between the line-level rewrite performed by
`remove_proxy_from_list` and its segment-level description. -/
theorem splitCh_flatten_filter (pr : List Char) :
    ∀ es : List (List Char), es ≠ [] → (∀ e ∈ es, '\n' ∉ e) →
      splitCh '\n' (List.flatten ((linesOfL es).filter (keepLine pr))) = removeSegs pr es
  | [], h, _ => absurd rfl h
  | [e], _, hnl => by
    have he : '\n' ∉ e := hnl e (List.mem_cons_self e [])
    by_cases h0 : e = []
    · subst h0
      simp [linesOfL, removeSegs, splitCh]
    · rw [show linesOfL [e] = [e] from by simp [linesOfL, h0]]
      rw [List.filter_cons, keepLine_last pr e he]
      by_cases hep : e = pr
      · simp [hep, removeSegs, splitCh, h0]
      · rw [show (decide (e ≠ pr)) = true from by simp [hep]]
        simp only [if_true, List.filter_nil, List.flatten_cons, List.flatten_nil,
          List.append_nil]
        rw [splitCh_of_not_mem '\n' e he]
        simp [removeSegs, h0, hep]
  | e :: e' :: es, _, hnl => by
    have he : '\n' ∉ e := hnl e (List.mem_cons_self e _)
    have hrest : ∀ x ∈ e' :: es, '\n' ∉ x := fun x hx => hnl x (List.mem_cons.mpr (Or.inr hx))
    have IH := splitCh_flatten_filter pr (e' :: es) (by simp) hrest
    rw [show linesOfL (e :: e' :: es) = (e ++ ['\n']) :: linesOfL (e' :: es) from rfl]
    rw [List.filter_cons, keepLine_mid pr e he]
    by_cases hep : e = pr
    · rw [show (decide (e ≠ pr)) = false from by simp [hep]]
      simp only [Bool.false_eq_true, if_false]
      rw [IH]
      simp [removeSegs, hep]
    · rw [show (decide (e ≠ pr)) = true from by simp [hep]]
      simp only [if_true, List.flatten_cons, List.append_assoc, List.singleton_append]
      rw [splitCh_append_cons '\n' e _ he, IH]
      simp [removeSegs, hep]

theorem splitCh_removeContentL (content pr : List Char) :
    splitCh '\n' (removeContentL content pr) = removeSegs pr (splitCh '\n' content) := by
  unfold removeContentL readlinesL
  exact splitCh_flatten_filter pr (splitCh '\n' content) (splitCh_ne_nil '\n' content)
    (not_mem_splitCh '\n' content)

theorem mem_removeSegs (pr x : List Char) :
    ∀ es, x ∈ removeSegs pr es → (x ∈ es ∧ x ≠ pr) ∨ x = []
  | [] => by
    intro h
    simp only [removeSegs, List.mem_singleton] at h
    exact Or.inr h
  | [e] => by
    intro h
    rw [removeSegs] at h
    split at h
    · rename_i hc
      rw [List.mem_singleton] at h
      subst h
      exact Or.inl ⟨List.mem_cons_self _ _, hc.2⟩
    · exact Or.inr (List.mem_singleton.mp h)
  | e :: e' :: es => by
    intro h
    rw [removeSegs] at h
    split at h
    · rcases mem_removeSegs pr x (e' :: es) h with ⟨hm, hne⟩ | hnil
      · exact Or.inl ⟨List.mem_cons.mpr (Or.inr hm), hne⟩
      · exact Or.inr hnil
    · rename_i hc
      rcases List.mem_cons.mp h with rfl | h2
      · exact Or.inl ⟨List.mem_cons_self _ _, hc⟩
      · rcases mem_removeSegs pr x (e' :: es) h2 with ⟨hm, hne⟩ | hnil
        · exact Or.inl ⟨List.mem_cons.mpr (Or.inr hm), hne⟩
        · exact Or.inr hnil

theorem mem_pySplitNl_removeContent (c q x : String)
    (hx : x ∈ pySplitNl (removeContent c q)) : (x ∈ pySplitNl c ∧ x ≠ q) ∨ x = "" := by
  unfold pySplitNl removeContent at hx
  rw [show (String.mk (removeContentL c.toList q.toList)).toList
      = removeContentL c.toList q.toList from rfl] at hx
  rw [splitCh_removeContentL] at hx
  obtain ⟨l, hl, hmk⟩ := List.mem_map.mp hx
  rcases mem_removeSegs q.toList l (splitCh '\n' c.toList) hl with ⟨hm, hne⟩ | hnil
  · left
    refine ⟨List.mem_map.mpr ⟨l, hm, hmk⟩, ?_⟩
    intro he
    apply hne
    rw [he] at hmk
    calc l = (String.mk l).toList := rfl
      _ = q.toList := by rw [hmk]
  · right
    rw [← hmk, hnil]

theorem removeFirstBlank_subset : ∀ (l l' : List String), removeFirstBlank l = some l' →
    ∀ x ∈ l', x ∈ l
  | [], l', h => by simp [removeFirstBlank] at h
  | a :: as, l', h => by
    rw [removeFirstBlank] at h
    by_cases ha : a = ""
    · rw [if_pos ha] at h
      injection h with h
      subst h
      intro x hx
      exact List.mem_cons.mpr (Or.inr hx)
    · rw [if_neg ha] at h
      cases hr : removeFirstBlank as with
      | none => rw [hr] at h; cases h
      | some as' =>
        rw [hr] at h
        simp only [Option.map_some', Option.some.injEq] at h
        subst h
        intro x hx
        rcases List.mem_cons.mp hx with rfl | hx2
        · exact List.mem_cons_self _ _
        · exact List.mem_cons.mpr (Or.inr (removeFirstBlank_subset as as' hr x hx2))

theorem getD_mem_of_lt {α : Type} (d : α) : ∀ (l : List α) (n : Nat), n < l.length →
    l.getD n d ∈ l
  | a :: as, 0, _ => List.mem_cons_self a as
  | a :: as, n + 1, h =>
    List.mem_cons.mpr (Or.inr (getD_mem_of_lt d as n (Nat.lt_of_succ_lt_succ h)))

/-- A successful pick returns a nonempty entry of the current file. -/
theorem get_random_proxy_ok_mem (c : String) (i : Nat) (p : String)
    (h : get_random_proxy (some c) i = .ok p) : p ∈ pySplitNl c ∧ p ≠ "" := by
  simp only [get_random_proxy] at h
  cases hr : removeFirstBlank (pySplitNl c) with
  | none => rw [hr] at h; cases h
  | some ps =>
    simp only [hr] at h
    by_cases hps : ps = []
    · rw [if_pos hps] at h; cases h
    · rw [if_neg hps] at h
      by_cases hblank : ps.getD (i % ps.length) "" = ""
      · rw [if_pos hblank] at h; cases h
      · rw [if_neg hblank] at h
        injection h with h
        subst h
        have hlen : 0 < ps.length := List.length_pos.mpr hps
        have hidx : i % ps.length < ps.length := Nat.mod_lt i hlen
        exact ⟨removeFirstBlank_subset (pySplitNl c) ps hr _
          (getD_mem_of_lt "" ps (i % ps.length) hidx), hblank⟩

/-- A nonblank proxy is gone from the newline-separated entries of the file
right after its own removal. -/
theorem not_mem_removeContent_self (c p : String) (hp : p ≠ "") :
    p ∉ pySplitNl (removeContent c p) := by
  intro hmem
  rcases mem_pySplitNl_removeContent c p p hmem with ⟨_, hne⟩ | he
  · exact hne rfl
  · exact hp he

/-- Absence from the pool entries is preserved by any later removal. -/
theorem not_mem_removeContent_mono (c q p : String) (hp : p ≠ "")
    (h : p ∉ pySplitNl c) : p ∉ pySplitNl (removeContent c q) := by
  intro hmem
  rcases mem_pySplitNl_removeContent c q p hmem with ⟨hm, _⟩ | he
  · exact h hm
  · exact hp he

theorem not_mem_applyRemoves (p : String) (hp : p ≠ "") :
    ∀ (qs : List String) (c : String), p ∉ pySplitNl c → p ∉ pySplitNl (applyRemoves c qs)
  | [], _, h => h
  | q :: qs, c, h =>
    not_mem_applyRemoves p hp qs (removeContent c q)
      (not_mem_removeContent_mono c q p hp h)

theorem splitCh_flatten_nl : ∀ (ls : List (List Char)), (∀ l ∈ ls, '\n' ∉ l) →
    splitCh '\n' (List.flatten (ls.map fun l => l ++ ['\n'])) = ls ++ [[]]
  | [], _ => rfl
  | l :: ls, h => by
    have hl : '\n' ∉ l := h l (List.mem_cons_self _ _)
    have hls : ∀ x ∈ ls, '\n' ∉ x := fun x hx => h x (List.mem_cons.mpr (Or.inr hx))
    simp only [List.map_cons, List.flatten_cons, List.append_assoc, List.singleton_append]
    rw [splitCh_append_cons '\n' l _ hl, splitCh_flatten_nl ls hls]
    rfl

theorem pySplitNl_poolContent (es : List String) (h : ∀ e ∈ es, '\n' ∉ e.toList) :
    pySplitNl (poolContent es) = es ++ [""] := by
  unfold pySplitNl poolContent
  rw [show (String.mk (List.flatten (es.map fun e => e.toList ++ ['\n']))).toList
      = List.flatten (es.map fun e => e.toList ++ ['\n']) from rfl]
  rw [show (es.map fun e => e.toList ++ ['\n'])
      = ((es.map String.toList).map fun l => l ++ ['\n']) from by
    rw [List.map_map]; rfl]
  rw [splitCh_flatten_nl (es.map String.toList) (by
    intro l hl
    obtain ⟨e, he, rfl⟩ := List.mem_map.mp hl
    exact h e he)]
  rw [List.map_append, List.map_map]
  have hid : (String.mk ∘ String.toList) = id := by funext s; rfl
  rw [hid, List.map_id]
  rfl

theorem removeFirstBlank_append_blank : ∀ (es : List String), (∀ e ∈ es, e ≠ "") →
    removeFirstBlank (es ++ [""]) = some es
  | [], _ => by simp [removeFirstBlank]
  | a :: as, h => by
    have ha : ¬ a = "" := h a (List.mem_cons_self _ _)
    rw [List.cons_append, removeFirstBlank, if_neg ha,
      removeFirstBlank_append_blank as (fun e he => h e (List.mem_cons.mpr (Or.inr he)))]
    rfl

/-- On a well-formed pool file (each entry nonblank, newline-terminated),
the pick succeeds and is a uniform choice among the entries: index `i`
selects entry `i mod length`. -/
theorem get_random_proxy_poolContent (es : List String) (i : Nat) (hne : es ≠ [])
    (hb : ∀ e ∈ es, e ≠ "") (hnl : ∀ e ∈ es, '\n' ∉ e.toList) :
    get_random_proxy (some (poolContent es)) i = .ok (es.getD (i % es.length) "") := by
  have hlen : 0 < es.length := List.length_pos.mpr hne
  have hidx : i % es.length < es.length := Nat.mod_lt i hlen
  simp only [get_random_proxy, pySplitNl_poolContent es hnl,
    removeFirstBlank_append_blank es hb]
  rw [if_neg hne, if_neg (hb _ (getD_mem_of_lt "" es _ hidx))]

theorem tailEvent_of_loopEvent (proxy : String) (e : Event) (h : loopEvent proxy e) :
    tailEvent proxy e := by
  cases e <;> simpa [loopEvent, tailEvent] using h

theorem remove_events_loop (runner : List String → Nat) (file : Option String)
    (pr proxy : String) :
    ∀ e ∈ (remove_proxy_from_list runner file pr).2, loopEvent proxy e := by
  cases file with
  | none =>
    intro e he
    simp [remove_proxy_from_list] at he
  | some c =>
    intro e he
    simp only [remove_proxy_from_list, disable_squid_on_srv, List.mem_cons,
      List.not_mem_nil, or_false] at he
    rcases he with rfl | rfl | rfl <;> trivial

theorem resolveLoop_events (runner : List String → Nat)
    (resolve : Nat → Except String String) (proxy : String) (numAttempts : Nat) :
    ∀ (fuel k : Nat) (file : Option String),
      ∀ e ∈ (resolveLoop runner resolve proxy numAttempts file k fuel).2.1,
        loopEvent proxy e := by
  intro fuel
  induction fuel with
  | zero =>
    intro k file e he
    simp [resolveLoop] at he
  | succ n ih =>
    intro k file e he
    rw [resolveLoop] at he
    cases hres : resolve k with
    | ok url =>
      simp only [hres, List.mem_singleton] at he
      subst he
      trivial
    | error errOut =>
      simp only [hres] at he
      by_cases h429 : strContains errOut "429" = true
      · rw [if_pos h429] at he
        rcases hrm : remove_proxy_from_list runner file proxy with ⟨res, evs⟩
        have hevs : ∀ x ∈ evs, loopEvent proxy x := fun x hx =>
          remove_events_loop runner file proxy proxy x (by rw [hrm]; exact hx)
        cases res with
        | ok newContent =>
          rw [hrm] at he
          dsimp only at he
          by_cases hk : k + 1 = numAttempts
          · rw [if_pos hk] at he
            dsimp only at he
            rcases List.mem_cons.mp he with rfl | h2
            · trivial
            · exact hevs e h2
          · rw [if_neg hk] at he
            dsimp only at he
            rcases List.mem_cons.mp he with rfl | h2
            · trivial
            · rcases List.mem_append.mp h2 with h3 | h3
              · exact hevs e h3
              · exact ih (k + 1) (some newContent) e h3
        | raised msg =>
          rw [hrm] at he
          dsimp only at he
          rcases List.mem_cons.mp he with rfl | h2
          · trivial
          · exact hevs e h2
        | exited code =>
          rw [hrm] at he
          dsimp only at he
          rcases List.mem_cons.mp he with rfl | h2
          · trivial
          · exact hevs e h2
      · rw [if_neg h429] at he
        by_cases hk : k + 1 = numAttempts
        · rw [if_pos hk] at he
          dsimp only at he
          rw [List.mem_singleton] at he
          subst he
          trivial
        · rw [if_neg hk] at he
          dsimp only at he
          rcases List.mem_cons.mp he with rfl | h2
          · trivial
          · exact ih (k + 1) file e h2

theorem filterMap_none {α β : Type} (f : α → Option β) :
    ∀ l : List α, (∀ a ∈ l, f a = none) → l.filterMap f = []
  | [], _ => rfl
  | a :: as, h => by
    rw [List.filterMap_cons, h a (List.mem_cons_self _ _)]
    exact filterMap_none f as (fun x hx => h x (List.mem_cons.mpr (Or.inr hx)))

theorem mem_filterMap_ex {α β : Type} (f : α → Option β) :
    ∀ (l : List α) (b : β), b ∈ l.filterMap f → ∃ a ∈ l, f a = some b
  | [], b, h => absurd h (List.not_mem_nil b)
  | a :: as, b, h => by
    rw [List.filterMap_cons] at h
    cases hfa : f a with
    | none =>
      rw [hfa] at h
      obtain ⟨x, hx, hfx⟩ := mem_filterMap_ex f as b h
      exact ⟨x, List.mem_cons.mpr (Or.inr hx), hfx⟩
    | some c =>
      rw [hfa] at h
      rcases List.mem_cons.mp h with rfl | h2
      · exact ⟨a, List.mem_cons_self _ _, hfa⟩
      · obtain ⟨x, hx, hfx⟩ := mem_filterMap_ex f as b h2
        exact ⟨x, List.mem_cons.mpr (Or.inr hx), hfx⟩

theorem tail_encode_events (proxy : String) (l1 l2 : List Event)
    (h1 : ∀ e ∈ l1, tailEvent proxy e) (h2 : ∀ e ∈ l2, loopEvent proxy e) :
    ∀ e ∈ l1 ++ (Event.ffmpeg proxy :: l2), tailEvent proxy e := by
  intro e he
  rcases List.mem_append.mp he with h | h
  · exact h1 e h
  · rcases List.mem_cons.mp h with rfl | h3
    · show proxy = proxy
      rfl
    · exact tailEvent_of_loopEvent proxy e (h2 e h3)

/-- The trace of `download_clip` is empty (validation failure or failed
pick), or a single pick followed only by commands that use the picked
proxy. -/
theorem download_clip_events_shape (runner : List String → Nat) (file : Option String)
    (env : ItemEnv) (vid out : String) (n : Nat) :
    (download_clip runner file env vid out n).events = [] ∨
    ∃ p rest, (download_clip runner file env vid out n).events = Event.pickProxy p :: rest ∧
      ∀ e ∈ rest, tailEvent p e := by
  unfold download_clip
  split
  · split
    · exact Or.inl rfl
    · exact Or.inl rfl
    · rename_i proxy hgp
      have htail : ∀ e ∈ (resolveLoop runner env.resolve proxy n file 0 n).2.1,
          tailEvent proxy e := fun e he =>
        tailEvent_of_loopEvent proxy e
          (resolveLoop_events runner env.resolve proxy n n 0 file e he)
      split
      · exact Or.inr ⟨proxy, _, rfl, htail⟩
      · exact Or.inr ⟨proxy, _, rfl, htail⟩
      · exact Or.inr ⟨proxy, _, rfl, htail⟩
      · split
        · split
          · split
            · rename_i hrm
              refine Or.inr ⟨proxy, _, rfl, tail_encode_events proxy _ _ htail ?_⟩
              intro x hx
              exact remove_events_loop runner _ proxy proxy x (by rw [hrm]; exact hx)
            · rename_i hrm
              refine Or.inr ⟨proxy, _, rfl, tail_encode_events proxy _ _ htail ?_⟩
              intro x hx
              exact remove_events_loop runner _ proxy proxy x (by rw [hrm]; exact hx)
            · rename_i hrm
              refine Or.inr ⟨proxy, _, rfl, tail_encode_events proxy _ _ htail ?_⟩
              intro x hx
              exact remove_events_loop runner _ proxy proxy x (by rw [hrm]; exact hx)
          · exact Or.inr ⟨proxy, _, rfl,
              tail_encode_events proxy _ [] htail (by intro x hx; cases hx)⟩
        · exact Or.inr ⟨proxy, _, rfl,
            tail_encode_events proxy _ [] htail (by intro x hx; cases hx)⟩
  · exact Or.inl rfl

/-- `download_clip` never writes to the status log itself. -/
theorem download_clip_no_logged (runner : List String → Nat) (file : Option String)
    (env : ItemEnv) (vid out : String) (n : Nat) :
    loggedLines (download_clip runner file env vid out n).events = [] := by
  rcases download_clip_events_shape runner file env vid out n with h | ⟨p, rest, hev, htail⟩
  · rw [h]
    rfl
  · rw [hev]
    unfold loggedLines
    rw [List.filterMap_cons]
    dsimp only
    exact filterMap_none _ rest (by
      intro e he
      have ht := htail e he
      cases e <;> first | rfl | exact False.elim ht)

/-- At most one pick occurs in a `download_clip` run, and every youtube-dl
and ffmpeg command line carries the picked proxy. -/
theorem download_clip_single_pick (runner : List String → Nat) (file : Option String)
    (env : ItemEnv) (vid out : String) (n : Nat) :
    (pickEvents (download_clip runner file env vid out n).events).length ≤ 1 ∧
    (∀ q ∈ ytdlProxies (download_clip runner file env vid out n).events,
      ∀ r ∈ pickEvents (download_clip runner file env vid out n).events, q = r) ∧
    (∀ q ∈ ffmpegProxies (download_clip runner file env vid out n).events,
      ∀ r ∈ pickEvents (download_clip runner file env vid out n).events, q = r) := by
  rcases download_clip_events_shape runner file env vid out n with h | ⟨p, rest, hev, htail⟩
  · rw [h]
    refine ⟨by simp [pickEvents], ?_, ?_⟩ <;>
      · intro q hq
        simp [ytdlProxies, ffmpegProxies, pickEvents] at hq
  · rw [hev]
    have hrest : pickEvents rest = [] := filterMap_none _ rest (by
      intro e he
      have ht := htail e he
      cases e <;> first | rfl | exact False.elim ht)
    have hpick : pickEvents (Event.pickProxy p :: rest) = [p] := by
      unfold pickEvents at hrest ⊢
      rw [List.filterMap_cons]
      dsimp only
      rw [hrest]
    rw [hpick]
    refine ⟨by simp, ?_, ?_⟩
    · intro q hq r hr
      rw [List.mem_singleton] at hr
      subst hr
      obtain ⟨e, he, hfe⟩ := mem_filterMap_ex _ _ q hq
      rcases List.mem_cons.mp he with rfl | h2
      · cases hfe
      · have ht := htail e h2
        cases e with
        | youtubeDl q2 =>
          injection hfe with hfe
          subst hfe
          exact ht
        | pickProxy q2 => exact False.elim ht
        | _ => cases hfe
    · intro q hq r hr
      rw [List.mem_singleton] at hr
      subst hr
      obtain ⟨e, he, hfe⟩ := mem_filterMap_ex _ _ q hq
      rcases List.mem_cons.mp he with rfl | h2
      · cases hfe
      · have ht := htail e h2
        cases e with
        | ffmpeg q2 =>
          injection hfe with hfe
          subst hfe
          exact ht
        | pickProxy q2 => exact False.elim ht
        | _ => cases hfe

/-- Five consecutive resolution failures, none rate-limited: the loop runs
the same command five times, leaves the pool file alone, and yields the
last failure output. -/
theorem resolveLoop_exhaust (runner : List String → Nat)
    (resolve : Nat → Except String String) (proxy : String) (file : Option String)
    (e : Nat → String) (hres : ∀ k < 5, resolve k = .error (e k))
    (h429 : ∀ k < 5, strContains (e k) "429" = false) :
    resolveLoop runner resolve proxy 5 file 0 5 =
      (file, [.youtubeDl proxy, .youtubeDl proxy, .youtubeDl proxy, .youtubeDl proxy,
        .youtubeDl proxy], .ok (.error (e 4))) := by
  have h0 := hres 0 (by norm_num)
  have h1 := hres 1 (by norm_num)
  have h2 := hres 2 (by norm_num)
  have h3 := hres 3 (by norm_num)
  have h4 := hres 4 (by norm_num)
  have g0 := h429 0 (by norm_num)
  have g1 := h429 1 (by norm_num)
  have g2 := h429 2 (by norm_num)
  have g3 := h429 3 (by norm_num)
  have g4 := h429 4 (by norm_num)
  simp [resolveLoop, h0, h1, h2, h3, h4, g0, g1, g2, g3, g4]

/-- When no failure output is rate-limited, the loop terminates normally
without touching the pool file. -/
theorem resolveLoop_no429 (runner : List String → Nat)
    (resolve : Nat → Except String String) (proxy : String) (file : Option String)
    (h429 : ∀ k msg, resolve k = .error msg → strContains msg "429" = false) :
    ∀ (fuel k : Nat), fuel + k = 5 → 0 < fuel →
      ∃ evs res, resolveLoop runner resolve proxy 5 file k fuel = (file, evs, .ok res) := by
  intro fuel
  induction fuel with
  | zero =>
    intro k _ hpos
    exact absurd hpos (by norm_num)
  | succ n ih =>
    intro k hsum _
    rw [resolveLoop]
    cases hres : resolve k with
    | ok url => exact ⟨[.youtubeDl proxy], .ok url, rfl⟩
    | error errOut =>
      dsimp only
      rw [if_neg (by rw [h429 k errOut hres]; exact Bool.false_ne_true)]
      by_cases hk : k + 1 = 5
      · rw [if_pos hk]
        exact ⟨[.youtubeDl proxy], .error errOut, rfl⟩
      · rw [if_neg hk]
        have hn : 0 < n := by omega
        obtain ⟨evs, res, heq⟩ := ih (k + 1) (by omega) hn
        refine ⟨.youtubeDl proxy :: evs, res, ?_⟩
        rw [heq]

/-- C9: for every call to the fetch routine with an identifier whose length
is not 11, `download_clip` fails with the validation (assertion) error
before any external process is invoked: the event trace is empty and the
proxies file is untouched. -/
theorem C9_validation_no_process (runner : List String → Nat) (file : Option String)
    (env : ItemEnv) (vid out : String) (n : Nat) (h : vid.length ≠ 11) :
    download_clip runner file env vid out n = ⟨file, [], .raised assertLenMsg⟩ := by
  unfold download_clip
  rw [if_neg h]

theorem C9_validation_no_process_witness :
    ("tooshort" : String).length ≠ 11 ∧
      download_clip (fun _ => 0) (some "p\n") ⟨0, fun _ => .ok "u", none, true, false⟩
        "tooshort" "o/x.mp4" 5 = ⟨some "p\n", [], .raised assertLenMsg⟩ :=
  ⟨by decide, C9_validation_no_process (fun _ => 0) (some "p\n")
    ⟨0, fun _ => .ok "u", none, true, false⟩ "tooshort" "o/x.mp4" 5 (by decide)⟩

/-- C6: within a run, once `remove(p)` has rewritten the pool file, no later
pick — after any further removals — ever returns `p`: proxy removal is
irreversible for the remainder of the run. -/
theorem C6_removed_never_picked (c p : String) (qs : List String) (i : Nat) (r : String)
    (h : get_random_proxy (some (applyRemoves (removeContent c p) qs)) i = .ok r) :
    r ≠ p := by
  obtain ⟨hmem, hne⟩ := get_random_proxy_ok_mem _ i r h
  intro hrp
  rw [hrp] at hmem hne
  exact not_mem_applyRemoves p hne qs (removeContent c p)
    (not_mem_removeContent_self c p hne) hmem

theorem C6_removed_never_picked_witness :
    get_random_proxy (some (applyRemoves (removeContent "x1\nx2\n" "x1") [])) 0
        = .ok "x2" ∧ "x2" ≠ "x1" :=
  ⟨by decide, C6_removed_never_picked "x1\nx2\n" "x1" [] 0 "x2" (by decide)⟩

/-- C7: `remove_proxy_from_list` removes every occurrence of the proxy from
the pool and persists the rewritten list, and the remote disable is
fire-and-forget: the result is identical for any exit codes of the two ssh
commands, no error is returned to the caller, and the persisted list no
longer lists the proxy. -/
theorem C7_remove_all_fire_and_forget (runner runner2 : List String → Nat) (c p : String)
    (hp : p ≠ "") :
    remove_proxy_from_list runner (some c) p = remove_proxy_from_list runner2 (some c) p ∧
    (remove_proxy_from_list runner (some c) p).1 = .ok (removeContent c p) ∧
    Event.writeProxyFile (removeContent c p) ∈ (remove_proxy_from_list runner (some c) p).2 ∧
    p ∉ pySplitNl (removeContent c p) :=
  ⟨rfl, rfl, List.mem_cons_self _ _, not_mem_removeContent_self c p hp⟩

theorem C7_remove_all_fire_and_forget_witness :
    ("a" : String) ≠ "" ∧
    (remove_proxy_from_list (fun _ => 0) (some "a\nb\na\n") "a"
        = remove_proxy_from_list (fun _ => 7) (some "a\nb\na\n") "a" ∧
      (remove_proxy_from_list (fun _ => 0) (some "a\nb\na\n") "a").1
        = .ok (removeContent "a\nb\na\n" "a") ∧
      Event.writeProxyFile (removeContent "a\nb\na\n" "a")
        ∈ (remove_proxy_from_list (fun _ => 0) (some "a\nb\na\n") "a").2 ∧
      "a" ∉ pySplitNl (removeContent "a\nb\na\n" "a")) :=
  ⟨by decide, C7_remove_all_fire_and_forget (fun _ => 0) (fun _ => 7) "a\nb\na\n" "a"
    (by decide)⟩

/-- C2: for every fetch in which the encode step runs and raises no error,
the returned flag is exactly the post-encode file-existence answer and the
message is "Downloaded", independent of anything else. -/
theorem C2_success_is_file_existence (runner : List String → Nat) (file : Option String)
    (env : ItemEnv) (vid out p : String) (henc : env.encodeResult = none)
    (hff : Event.ffmpeg p ∈ (download_clip runner file env vid out 5).events) :
    (download_clip runner file env vid out 5).result
      = .ok (env.outputExistsAfter, "Downloaded") := by
  rcases hdc : download_clip runner file env vid out 5 with ⟨f, evs, res⟩
  rw [hdc] at hff
  dsimp only at hff ⊢
  unfold download_clip at hdc
  split at hdc
  · split at hdc
    · injection hdc with h1 h2 h3
      subst h2
      exact absurd hff (List.not_mem_nil _)
    · injection hdc with h1 h2 h3
      subst h2
      exact absurd hff (List.not_mem_nil _)
    · rename_i proxy hgp
      rw [henc] at hdc
      split at hdc
      · injection hdc with h1 h2 h3
        subst h2
        rcases List.mem_cons.mp hff with hc | hc
        · exact Event.noConfusion hc
        · exact False.elim
            (resolveLoop_events runner env.resolve proxy 5 5 0 file _ hc)
      · injection hdc with h1 h2 h3
        subst h2
        rcases List.mem_cons.mp hff with hc | hc
        · exact Event.noConfusion hc
        · exact False.elim
            (resolveLoop_events runner env.resolve proxy 5 5 0 file _ hc)
      · injection hdc with h1 h2 h3
        subst h2
        rcases List.mem_cons.mp hff with hc | hc
        · exact Event.noConfusion hc
        · exact False.elim
            (resolveLoop_events runner env.resolve proxy 5 5 0 file _ hc)
      · injection hdc with h1 h2 h3
        subst h3
        rfl
  · injection hdc with h1 h2 h3
    subst h2
    exact absurd hff (List.not_mem_nil _)

theorem C2_success_is_file_existence_witness :
    (⟨0, fun _ => .ok "u", none, false, false⟩ : ItemEnv).encodeResult = none ∧
    Event.ffmpeg "p" ∈ (download_clip (fun _ => 0) (some "p\n")
        ⟨0, fun _ => .ok "u", none, false, false⟩ "abcdefghijk" "o/x.mp4" 5).events ∧
    (download_clip (fun _ => 0) (some "p\n")
        ⟨0, fun _ => .ok "u", none, false, false⟩ "abcdefghijk" "o/x.mp4" 5).result
      = .ok (false, "Downloaded") :=
  ⟨rfl, by decide, C2_success_is_file_existence (fun _ => 0) (some "p\n")
    ⟨0, fun _ => .ok "u", none, false, false⟩ "abcdefghijk" "o/x.mp4" "p" rfl (by decide)⟩

/-- C4: when URL resolution fails five consecutive times with outputs free
of the rate-limit marker, the fetch returns `(False, last error text)` and,
with a status log configured, a line for the item is appended to the
status log. -/
theorem C4_exhaustion_logged (runner : List String → Nat) (file : Option String)
    (row : Row) (ltd : LabelToDir) (tf : Int → String) (env : ItemEnv) (proxy : String)
    (e : Nat → String)
    (hlen : row.videoId.length = 11)
    (hpre : env.outputPreExists = false)
    (hpick : get_random_proxy file env.randIdx = .ok proxy)
    (hres : ∀ k < 5, env.resolve k = .error (e k))
    (h429 : ∀ k < 5, strContains (e k) "429" = false) :
    (download_clip_wrapper runner file row ltd tf env true).result
        = .ok (clipIdOf (construct_video_filename row ltd tf), false, e 4) ∧
      Event.appendStatus (statusLine row.videoId (e 4))
        ∈ (download_clip_wrapper runner file row ltd tf env true).events := by
  have hloop := resolveLoop_exhaust runner env.resolve proxy file e hres h429
  have hdc : download_clip runner file env row.videoId
      (construct_video_filename row ltd tf) 5
      = ⟨file, .pickProxy proxy :: [.youtubeDl proxy, .youtubeDl proxy, .youtubeDl proxy,
          .youtubeDl proxy, .youtubeDl proxy], .ok (false, e 4)⟩ := by
    unfold download_clip
    rw [if_pos hlen, hpick]
    dsimp only
    rw [hloop]
  have hm : strContains (e 4) error_429_message = false :=
    not_contains_marker (e 4) (h429 4 (by norm_num))
  have hcond : (true && !(strContains (e 4) error_429_message)) = true := by
    rw [hm]
    rfl
  unfold download_clip_wrapper
  rw [if_neg (by rw [hpre]; exact Bool.false_ne_true)]
  rw [hdc]
  dsimp only
  rw [if_pos hcond]
  exact ⟨rfl, List.mem_append.mpr (Or.inr (List.mem_cons_self _ _))⟩

theorem C4_exhaustion_logged_witness :
    get_random_proxy (some "p\n") 0 = .ok "p" ∧
    ((download_clip_wrapper (fun _ => 0) (some "p\n") ⟨"abcdefghijk", 1, 2, "d"⟩
        (.flat "o") fmt06d ⟨0, fun _ => .error "boom", none, false, false⟩ true).result
      = .ok (clipIdOf (construct_video_filename ⟨"abcdefghijk", 1, 2, "d"⟩
          (.flat "o") fmt06d), false, "boom") ∧
      Event.appendStatus (statusLine "abcdefghijk" "boom")
        ∈ (download_clip_wrapper (fun _ => 0) (some "p\n") ⟨"abcdefghijk", 1, 2, "d"⟩
          (.flat "o") fmt06d ⟨0, fun _ => .error "boom", none, false, false⟩ true).events) :=
  ⟨by decide, C4_exhaustion_logged (fun _ => 0) (some "p\n") ⟨"abcdefghijk", 1, 2, "d"⟩
    (.flat "o") fmt06d ⟨0, fun _ => .error "boom", none, false, false⟩ "p" (fun _ => "boom")
    (by decide) rfl (by decide) (fun _ _ => rfl)
    (fun _ _ => by show strContains "boom" "429" = false; decide)⟩

/-- C1 counterexample: in the concrete run of `c1Run`, the first resolution
attempt fails rate-limited and the proxy is removed from the pool (the
rewritten file no longer lists it), yet exactly one pick happened and the
second resolution attempt ran youtube-dl with the very same removed proxy —
refuting that every resolution attempt acquires its proxy via a fresh pick
and that a proxy just removed for rate-limiting is not reused by the
retry. -/
theorem C1_counterexample :
    pickEvents c1Run.events = ["https://10.0.0.1:3128"] ∧
    ytdlProxies c1Run.events = ["https://10.0.0.1:3128", "https://10.0.0.1:3128"] ∧
    Event.writeProxyFile "https://10.0.0.2:3128\n" ∈ c1Run.events ∧
    "https://10.0.0.1:3128" ∉ pySplitNl "https://10.0.0.2:3128\n" :=
  ⟨rfl, rfl, by decide, by decide⟩

/-- C1 amended: `download_clip` performs at most one pick per fetch, before
the first attempt, and every youtube-dl attempt and the ffmpeg encode reuse
exactly the picked proxy — the command line is fixed before the retry loop,
so a retry never uses a different proxy, not even one just removed from the
pool for rate-limiting. -/
theorem C1_amended_single_pick (runner : List String → Nat) (file : Option String)
    (env : ItemEnv) (vid out : String) (n : Nat) :
    (pickEvents (download_clip runner file env vid out n).events).length ≤ 1 ∧
    (∀ q ∈ ytdlProxies (download_clip runner file env vid out n).events,
      ∀ r ∈ pickEvents (download_clip runner file env vid out n).events, q = r) ∧
    (∀ q ∈ ffmpegProxies (download_clip runner file env vid out n).events,
      ∀ r ∈ pickEvents (download_clip runner file env vid out n).events, q = r) :=
  download_clip_single_pick runner file env vid out n

/-- C3 counterexample: with a status log configured, an item skipped via
'Exists' returns before the log write: the outcome is the Exists tuple and
the event trace is empty — no line is appended for it, refuting that the
Exists outcome is appended to the status log. -/
theorem C3_counterexample :
    download_clip_wrapper (fun _ => 0) (some "p\n") c3Row (.flat "out") fmt06d c3Env true
      = ⟨some "p\n", [], .ok ("abcdefghijk_000010_000015", true, "Exists")⟩ := rfl

/-- C3 amended: with a status log configured, an Exists skip appends
nothing (it returns before the write); for an actual fetch that returns
normally, a line is appended exactly when the log message does not contain
the rate-limit marker. -/
theorem C3_amended_logging (runner : List String → Nat) (file : Option String)
    (row : Row) (ltd : LabelToDir) (tf : Int → String) (env : ItemEnv) :
    (env.outputPreExists = true →
      loggedLines (download_clip_wrapper runner file row ltd tf env true).events = []) ∧
    (∀ cid d log, env.outputPreExists = false →
      (download_clip_wrapper runner file row ltd tf env true).result = .ok (cid, d, log) →
      loggedLines (download_clip_wrapper runner file row ltd tf env true).events
        = if strContains log error_429_message then [] else [statusLine row.videoId log]) := by
  constructor
  · intro hpre
    unfold download_clip_wrapper
    rw [if_pos hpre]
    rfl
  · intro cid d log hpre hres
    have hpre' : ¬ (env.outputPreExists = true) := by simp [hpre]
    have h0 := download_clip_no_logged runner file env row.videoId
      (construct_video_filename row ltd tf) 5
    unfold download_clip_wrapper at hres ⊢
    rw [if_neg hpre'] at hres ⊢
    rcases hr : (download_clip runner file env row.videoId
        (construct_video_filename row ltd tf) 5).result with ⟨dl, lg⟩ | er | code
    · rw [hr] at hres
      dsimp only at hres ⊢
      by_cases hmk : strContains lg error_429_message = true
      · rw [if_neg (by rw [Bool.true_and, Bool.not_eq_true', hmk]; exact (by simp))] at hres ⊢
        dsimp only at hres
        injection hres with h1
        injection h1 with ha hb
        injection hb with hb1 hb2
        subst hb2
        rw [if_pos hmk]
        exact h0
      · rw [Bool.not_eq_true] at hmk
        rw [if_pos (by rw [Bool.true_and, hmk]; rfl)] at hres ⊢
        dsimp only at hres
        injection hres with h1
        injection h1 with ha hb
        injection hb with hb1 hb2
        subst hb2
        rw [if_neg (by rw [hmk]; exact Bool.false_ne_true)]
        unfold loggedLines at h0 ⊢
        rw [List.filterMap_append, h0]
        rfl
    · rw [hr] at hres
      dsimp only at hres
      exact PyResult.noConfusion hres
    · rw [hr] at hres
      dsimp only at hres
      exact PyResult.noConfusion hres

theorem C3_amended_logging_witness :
    loggedLines (download_clip_wrapper (fun _ => 0) (some "p\n") ⟨"abcdefghijk", 1, 2, "d"⟩
        (.flat "o") fmt06d ⟨0, fun _ => .ok "u", none, true, false⟩ true).events
      = [statusLine "abcdefghijk" "Downloaded"] := by
  have h := (C3_amended_logging (fun _ => 0) (some "p\n") ⟨"abcdefghijk", 1, 2, "d"⟩
      (.flat "o") fmt06d ⟨0, fun _ => .ok "u", none, true, false⟩).2
      "abcdefghijk_000001_000002" true "Downloaded" rfl (by decide)
  rw [h]
  rfl

/-- C10 counterexample: on a file with an interior blank line, pick removes
only the first empty entry, and index 2 then selects the surviving blank
entry, exiting the process instead of returning one of the non-blank
entries; and on a file with no blank entry at all (no trailing newline) the
removal of the empty string raises — refuting that pick ignores all blank
lines and returns a proxy chosen among the non-blank entries for every
content. -/
theorem C10_counterexample :
    get_random_proxy (some "p\n\nq\n") 2 = .exited 1 ∧
      get_random_proxy (some "p") 0 = .raised valueErrorMsg :=
  ⟨rfl, rfl⟩

/-- C10 amended: pick removes only the first empty entry of the
newline-split content.  On a well-formed file — nonblank entries, each on a
newline-terminated line — it returns a uniform choice among the entries
(index i selects entry i mod n), and on the empty file it raises the
empty-sequence error; other blank lines are not ignored (see the
counterexample, where the process exits or the removal raises instead). -/
theorem C10_amended_pick (es : List String) (i : Nat) (hne : es ≠ [])
    (hb : ∀ e ∈ es, e ≠ "") (hnl : ∀ e ∈ es, '\n' ∉ e.toList) :
    get_random_proxy (some (poolContent es)) i = .ok (es.getD (i % es.length) "") ∧
    get_random_proxy (some (poolContent [])) i = .raised indexErrorMsg :=
  ⟨get_random_proxy_poolContent es i hne hb hnl, rfl⟩

theorem C10_amended_pick_witness :
    (["pa", "pb", "pc"] : List String) ≠ [] ∧
    get_random_proxy (some (poolContent ["pa", "pb", "pc"])) 7 = .ok "pb" := by
  refine ⟨by decide, ?_⟩
  have h := (C10_amended_pick ["pa", "pb", "pc"] 7 (by decide) (by decide) (by decide)).1
  rw [h]
  rfl

/-- C5 counterexample: with the proxy-list source unreadable for the whole
run, a batch whose only item is skipped via Exists completes normally: the
process never aborts, refuting that a failure to read the proxy list aborts
the entire process immediately as a startup precondition before any fetch
attempt — the list is only read when a pick happens, inside a fetch. -/
theorem C5_counterexample :
    runBatch (fun _ => 0) true (.flat "o") fmt06d none [⟨c5Row, c5EnvPre⟩]
      = ⟨none, [], [("abcdefghijk_000001_000002", true, "Exists")], none⟩ := rfl

/-- C5 amended: the proxy list is read from its file at every pick, during
an item's fetch, not once at process start; an unreadable list exits the
process (code 1) at the first item that actually fetches, while an item
skipped as already existing completes despite the unreadable list. -/
theorem C5_amended_read_per_pick (runner : List String → Nat) (csv : Bool)
    (ltd : LabelToDir) (tf : Int → String) (row : Row) (env1 env2 : ItemEnv)
    (h1 : env1.outputPreExists = true) (h2 : env2.outputPreExists = false)
    (hlen : row.videoId.length = 11) :
    (runBatch runner csv ltd tf none [⟨row, env1⟩]).halt = none ∧
    (runBatch runner csv ltd tf none [⟨row, env2⟩]).halt = some (.exited 1) := by
  constructor
  · have hw : download_clip_wrapper runner none row ltd tf env1 csv
        = ⟨none, [], .ok (clipIdOf (construct_video_filename row ltd tf), true, "Exists")⟩ := by
      unfold download_clip_wrapper
      rw [if_pos h1]
    unfold runBatch
    dsimp only
    rw [hw]
    rfl
  · have hdc : download_clip runner none env2 row.videoId
        (construct_video_filename row ltd tf) 5 = ⟨none, [], .exited 1⟩ := by
      unfold download_clip
      rw [if_pos hlen]
      rfl
    have hw : download_clip_wrapper runner none row ltd tf env2 csv
        = ⟨none, [], .exited 1⟩ := by
      unfold download_clip_wrapper
      rw [if_neg (by rw [h2]; exact Bool.false_ne_true), hdc]
    unfold runBatch
    dsimp only
    rw [hw]

theorem C5_amended_read_per_pick_witness :
    (⟨0, fun _ => .ok "u", none, true, true⟩ : ItemEnv).outputPreExists = true ∧
    (⟨0, fun _ => .ok "u", none, true, false⟩ : ItemEnv).outputPreExists = false ∧
    ("abcdefghijk" : String).length = 11 ∧
    ((runBatch (fun _ => 0) true (.flat "o") fmt06d none
        [⟨⟨"abcdefghijk", 1, 2, "d"⟩, ⟨0, fun _ => .ok "u", none, true, true⟩⟩]).halt
          = none ∧
      (runBatch (fun _ => 0) true (.flat "o") fmt06d none
        [⟨⟨"abcdefghijk", 1, 2, "d"⟩, ⟨0, fun _ => .ok "u", none, true, false⟩⟩]).halt
          = some (.exited 1)) :=
  ⟨rfl, rfl, by decide, C5_amended_read_per_pick (fun _ => 0) true (.flat "o") fmt06d
    ⟨"abcdefghijk", 1, 2, "d"⟩ ⟨0, fun _ => .ok "u", none, true, true⟩
    ⟨0, fun _ => .ok "u", none, true, false⟩ rfl rfl (by decide)⟩

/-- With a well-formed pool and no rate-limited failure output, an item's
wrapper call returns normally and leaves the pool file unchanged. -/
theorem wrapper_no429_ok (runner : List String → Nat) (ltd : LabelToDir)
    (tf : Int → String) (csv : Bool) (es : List String) (hne : es ≠ [])
    (hb : ∀ e ∈ es, e ≠ "") (hnl : ∀ e ∈ es, '\n' ∉ e.toList) (row : Row) (env : ItemEnv)
    (hlen : row.videoId.length = 11)
    (hr429 : ∀ k msg, env.resolve k = .error msg → strContains msg "429" = false)
    (he429 : ∀ msg, env.encodeResult = some msg → strContains msg "429" = false) :
    ∃ out evs, download_clip_wrapper runner (some (poolContent es)) row ltd tf env csv
      = ⟨some (poolContent es), evs, .ok out⟩ := by
  by_cases hpre : env.outputPreExists = true
  · refine ⟨(clipIdOf (construct_video_filename row ltd tf), true, "Exists"), [], ?_⟩
    unfold download_clip_wrapper
    rw [if_pos hpre]
  · have hpick := get_random_proxy_poolContent es env.randIdx hne hb hnl
    obtain ⟨evsL, res, hloop⟩ := resolveLoop_no429 runner env.resolve
      (es.getD (env.randIdx % es.length) "") (some (poolContent es)) hr429 5 0
      (by norm_num) (by norm_num)
    have hdc : ∃ evs b m, download_clip runner (some (poolContent es)) env row.videoId
        (construct_video_filename row ltd tf) 5
        = ⟨some (poolContent es), evs, .ok (b, m)⟩ := by
      unfold download_clip
      rw [if_pos hlen, hpick]
      dsimp only
      rw [hloop]
      dsimp only
      cases res with
      | error errOut => exact ⟨_, _, _, rfl⟩
      | ok url =>
        cases henc : env.encodeResult with
        | none => exact ⟨_, _, _, rfl⟩
        | some errOut =>
          dsimp only
          rw [if_neg (by rw [he429 errOut henc]; exact Bool.false_ne_true)]
          exact ⟨_, _, _, rfl⟩
    obtain ⟨clipEvs, b, m, hdcEq⟩ := hdc
    unfold download_clip_wrapper
    rw [if_neg hpre, hdcEq]
    dsimp only
    by_cases hcsv : (csv && !(strContains m error_429_message)) = true
    · rw [if_pos hcsv]
      exact ⟨_, _, rfl⟩
    · rw [if_neg hcsv]
      exact ⟨_, _, rfl⟩

/-- Sequential batch over only non-rate-limited items: every item completes
with an outcome and the run never halts. -/
theorem runBatch_no429 (runner : List String → Nat) (csv : Bool) (ltd : LabelToDir)
    (tf : Int → String) (es : List String) (hne : es ≠ []) (hb : ∀ e ∈ es, e ≠ "")
    (hnl : ∀ e ∈ es, '\n' ∉ e.toList) :
    ∀ items : List Item,
      (∀ it ∈ items, it.row.videoId.length = 11 ∧
        (∀ k msg, it.env.resolve k = .error msg → strContains msg "429" = false) ∧
        (∀ msg, it.env.encodeResult = some msg → strContains msg "429" = false)) →
      (runBatch runner csv ltd tf (some (poolContent es)) items).halt = none ∧
      (runBatch runner csv ltd tf (some (poolContent es)) items).outcomes.length
        = items.length
  | [], _ => ⟨rfl, rfl⟩
  | it :: rest, h => by
    obtain ⟨hlen, hr429, he429⟩ := h it (List.mem_cons_self _ _)
    obtain ⟨out, evs, hw⟩ := wrapper_no429_ok runner ltd tf csv es hne hb hnl it.row
      it.env hlen hr429 he429
    have IH := runBatch_no429 runner csv ltd tf es hne hb hnl rest
      (fun x hx => h x (List.mem_cons.mpr (Or.inr hx)))
    unfold runBatch
    rw [hw]
    dsimp only
    refine ⟨IH.1, ?_⟩
    rw [List.length_cons, List.length_cons, IH.2]

/-- C8 counterexample: a readable, nonempty pool file that merely lacks a
trailing newline makes the first item's pick raise the list-removal error;
the exception is not captured in that item's outcome but kills the whole
batch: no outcome is recorded and the second item is never processed —
refuting that only pool-initialization failure is fatal. -/
theorem C8_counterexample :
    runBatch (fun _ => 0) true (.flat "o") fmt06d (some "proxyA") [c8Item, c8Item]
      = ⟨some "proxyA", [], [], some (.raised valueErrorMsg)⟩ := rfl

/-- C8 amended: failures of the external resolution and encode processes
are captured as text in the item's outcome and never abort the batch — over
a well-formed pool, a run whose external failures are all non-rate-limited
completes with one outcome per item and no halt.  Proxy-selection failures,
however, are fatal at any item, not only at initialization (see the
counterexample). -/
theorem C8_amended_failures_contained (runner : List String → Nat) (csv : Bool)
    (ltd : LabelToDir) (tf : Int → String) (es : List String) (items : List Item)
    (hne : es ≠ []) (hb : ∀ e ∈ es, e ≠ "") (hnl : ∀ e ∈ es, '\n' ∉ e.toList)
    (hitems : ∀ it ∈ items, it.row.videoId.length = 11 ∧
      (∀ k msg, it.env.resolve k = .error msg → strContains msg "429" = false) ∧
      (∀ msg, it.env.encodeResult = some msg → strContains msg "429" = false)) :
    (runBatch runner csv ltd tf (some (poolContent es)) items).halt = none ∧
    (runBatch runner csv ltd tf (some (poolContent es)) items).outcomes.length
      = items.length :=
  runBatch_no429 runner csv ltd tf es hne hb hnl items hitems

theorem C8_amended_failures_contained_witness :
    (["pa"] : List String) ≠ [] ∧
    ((runBatch (fun _ => 0) true (.flat "o") fmt06d (some (poolContent ["pa"]))
        [⟨⟨"abcdefghijk", 1, 2, "d"⟩, ⟨0, fun _ => .ok "u", none, true, false⟩⟩]).halt
          = none ∧
      (runBatch (fun _ => 0) true (.flat "o") fmt06d (some (poolContent ["pa"]))
        [⟨⟨"abcdefghijk", 1, 2, "d"⟩, ⟨0, fun _ => .ok "u", none, true, false⟩⟩]).outcomes.length
          = 1) :=
  ⟨by decide, C8_amended_failures_contained (fun _ => 0) true (.flat "o") fmt06d ["pa"]
    [⟨⟨"abcdefghijk", 1, 2, "d"⟩, ⟨0, fun _ => .ok "u", none, true, false⟩⟩]
    (by decide) (by decide) (by decide)
    (fun it hit => by
      rcases List.mem_singleton.mp hit with rfl
      exact ⟨by decide, fun k msg hmsg => Except.noConfusion hmsg,
        fun msg hmsg => Option.noConfusion hmsg⟩)⟩

end Kinetics
